import Mathlib

/-!
Shallow embedding of `openquake/commonlib/source.py` (oq-engine):
the realization-association engine (`LtRealization`, `RlzsAssoc`,
`CompositionInfo`, `CompositeSourceModel.get_rlzs_assoc`) and the
group/processor data structures (`TrtModel`, `SourceProcessor.process`).

Python floats are modelled as rationals (`ℚ`), Python exceptions as
`Except`, Python dictionaries as functions into `Option`, and Python
sets of integers as `Finset ℕ`.
-/

namespace OQ

/-- A hazardlib source object, as seen by `source.py`: it carries a
tectonic region type, a source id, a min/max magnitude (as returned by
`get_min_max_mag`) and a rupture count. -/
structure Src where
  source_id : String
  tectonic_region_type : String
  min_mag : ℚ
  max_mag : ℚ
  num_ruptures : ℕ
deriving DecidableEq

/-- `TrtModel`: a container of sources sharing a tectonic region type,
with a magnitude envelope (`None` = not yet set), a rupture count, the
associated gsims and a numeric id (source.py lines 103-160). -/
structure TrtModel where
  trt : String
  sources : List Src
  num_ruptures : ℕ
  min_mag : Option ℚ
  max_mag : Option ℚ
  gsims : List String
  id : ℕ
deriving DecidableEq

/-- `TrtModel.update(src)` (source.py lines 164-182): first asserts that
the source's tectonic region type equals the model's (`AssertionError`
carrying the mismatched pair, raised before any mutation), then appends
the source and widens the min/max magnitude envelope with the source's
own `get_min_max_mag()` values, treating `None` as "adopt the source's
value". -/
def TrtModel.update (tm : TrtModel) (src : Src) :
    Except (String × String) TrtModel :=
  if src.tectonic_region_type = tm.trt then
    let sources := tm.sources ++ [src]
    let min_mag :=
      match tm.min_mag with
      | none => some src.min_mag
      | some prev => if src.min_mag < prev then some src.min_mag else some prev
    let max_mag :=
      match tm.max_mag with
      | none => some src.max_mag
      | some prev => if src.max_mag > prev then some src.max_mag else some prev
    .ok { tm with sources := sources, min_mag := min_mag, max_mag := max_mag }
  else
    .error (src.tectonic_region_type, tm.trt)

/-- The union of a (possibly unset) lower envelope bound with a new value. -/
def envMin (prev : Option ℚ) (v : ℚ) : ℚ :=
  prev.elim v (fun p => min p v)

/-- The union of a (possibly unset) upper envelope bound with a new value. -/
def envMax (prev : Option ℚ) (v : ℚ) : ℚ :=
  prev.elim v (fun p => max p v)

/-- The `if`-shape used by `update` for the lower bound computes a minimum. -/
theorem ite_lt_eq_min (p v : ℚ) : (if v < p then some v else some p) = some (min p v) := by
  rcases lt_or_le v p with h | h
  · rw [if_pos h, min_eq_right h.le]
  · rw [if_neg (not_lt.mpr h), min_eq_left h]

/-- The `if`-shape used by `update` for the upper bound computes a maximum. -/
theorem ite_gt_eq_max (p v : ℚ) : (if p < v then some v else some p) = some (max p v) := by
  rcases lt_or_le p v with h | h
  · rw [if_pos h, max_eq_right h.le]
  · rw [if_neg (not_lt.mpr h), max_eq_left h]

/-- C7: for every `TrtModel` and every source, `update` fails if and only
if the source's tectonic region type differs from the model's (and, being
raised before any mutation, it leaves the model unchanged — in this
embedding the error branch returns no model at all); otherwise it appends
the source and sets the min/max magnitude envelope to the union of the
previous envelope and the source's own min/max magnitude. -/
theorem trtModel_update_spec (tm : TrtModel) (src : Src) :
    ((∃ e, tm.update src = .error e) ↔ src.tectonic_region_type ≠ tm.trt) ∧
    (src.tectonic_region_type = tm.trt →
      tm.update src = .ok { tm with
        sources := tm.sources ++ [src],
        min_mag := some (envMin tm.min_mag src.min_mag),
        max_mag := some (envMax tm.max_mag src.max_mag) }) := by
  by_cases h : src.tectonic_region_type = tm.trt
  · constructor
    · simp [TrtModel.update, h]
    · intro _
      cases hmn : tm.min_mag <;> cases hmx : tm.max_mag <;>
        simp [TrtModel.update, h, hmn, hmx, envMin, envMax,
              ite_lt_eq_min, ite_gt_eq_max]
  · constructor
    · simp [TrtModel.update, h]
    · intro he
      exact absurd he h

/-- Concrete source used to exercise `trtModel_update_spec`. -/
def srcA : Src :=
  { source_id := "a", tectonic_region_type := "Active Shallow Crust",
    min_mag := 5, max_mag := 7, num_ruptures := 10 }

/-- Concrete group used to exercise `trtModel_update_spec`. -/
def tmA : TrtModel :=
  { trt := "Active Shallow Crust", sources := [], num_ruptures := 0,
    min_mag := some 6, max_mag := some 8, gsims := [], id := 0 }

/-- Witness for C7 at a concrete group and source of matching category. -/
theorem trtModel_update_spec_witness :
    tmA.update srcA = .ok { tmA with
      sources := tmA.sources ++ [srcA],
      min_mag := some (envMin tmA.min_mag srcA.min_mag),
      max_mag := some (envMax tmA.max_mag srcA.max_mag) } :=
  (trtModel_update_spec tmA srcA).2 rfl

/-- A GSIM logic-tree realization as produced by the (external) logic-tree
collaborator: the part of it `source.py` reads is its `uid` string and its
weight. -/
structure GsimRlz where
  uid : String
  weight : ℚ
deriving DecidableEq

/-- `LtRealization` (source.py lines 36-71): a composite realization with
an ordinal, the source-model logic-tree path, the GSIM realization, a
weight and a set of collection ids (a Python `set`, modelled as `Finset`).
-/
structure LtRealization where
  ordinal : ℕ
  sm_lt_path : List String
  gsim_rlz : GsimRlz
  weight : ℚ
  col_ids : Finset ℕ
deriving DecidableEq

/-- `LtRealization.uid` (source.py lines 59-62): `'_'.join(sm_lt_path)`
followed by a comma and the GSIM realization's uid. -/
def LtRealization.uid (r : LtRealization) : String :=
  String.intercalate "_" r.sm_lt_path ++ "," ++ r.gsim_rlz.uid

/-- `LtRealization.__repr__` (source.py lines 48-53): the string
`'<%d,%s,w=%s%s>' % (ordinal, uid, weight, col)` where `col` is empty for
an empty collection-id set and otherwise `',col='` followed by the sorted
collection ids joined with commas. -/
def LtRealization.reprStr (r : LtRealization) : String :=
  let col : String :=
    if r.col_ids.Nonempty then
      ",col=" ++ String.intercalate "," ((r.col_ids.sort (· ≤ ·)).map toString)
    else ""
  "<" ++ toString r.ordinal ++ "," ++ r.uid ++ ",w=" ++ toString r.weight
    ++ col ++ ">"

/-- `LtRealization.__eq__` (source.py lines 64-65): equality is defined as
equality of the repr strings. -/
def LtRealization.eqv (r1 r2 : LtRealization) : Prop :=
  r1.reprStr = r2.reprStr

/-- `LtRealization.__hash__` (source.py lines 70-71): the hash of the repr
string (the Python string hash is modelled by the Lean string hash). -/
def LtRealization.hashv (r : LtRealization) : UInt64 :=
  r.reprStr.hash

/-- A realization with ordinal 0 on path `b1` with GSIM choice `BA2008`. -/
def rlzEx0 : LtRealization :=
  { ordinal := 0, sm_lt_path := ["b1"],
    gsim_rlz := { uid := "BA2008", weight := 1 },
    weight := 1, col_ids := ∅ }

/-- The same realization as `rlzEx0` except for its ordinal. -/
def rlzEx1 : LtRealization :=
  { rlzEx0 with ordinal := 1 }

/-- C5 counterexample: `rlzEx0` and `rlzEx1` share the owning model's path
and the choice identity (same canonical `uid` string), differ only in
ordinal, and yet are NOT equal under the code's equality, because the repr
string that defines equality starts with the ordinal. -/
theorem ltRealization_ordinal_sensitive :
    rlzEx0.sm_lt_path = rlzEx1.sm_lt_path ∧
    rlzEx0.gsim_rlz = rlzEx1.gsim_rlz ∧
    LtRealization.uid rlzEx0 = LtRealization.uid rlzEx1 ∧
    ¬ rlzEx0.eqv rlzEx1 := by
  refine ⟨rfl, rfl, rfl, fun h => ?_⟩
  exact (by decide : rlzEx0.reprStr ≠ rlzEx1.reprStr) h

/-- C5 amended: two `LtRealization`s are equal (and share a hash) iff their
full repr strings match; the repr includes the ordinal, the weight and the
collection ids besides path and choice identity, so agreement on all five
fields implies equality, equality always implies equal hashes, and equality
is ordinal-sensitive rather than ordinal-independent: realizations
differing only in their ordinal are unequal. -/
theorem ltRealization_eq_spec :
    (∀ r1 r2 : LtRealization, r1.ordinal = r2.ordinal →
       r1.sm_lt_path = r2.sm_lt_path → r1.gsim_rlz.uid = r2.gsim_rlz.uid →
       r1.weight = r2.weight → r1.col_ids = r2.col_ids → r1.eqv r2) ∧
    (∀ r1 r2 : LtRealization, r1.eqv r2 → r1.hashv = r2.hashv) ∧
    ¬ rlzEx0.eqv rlzEx1 := by
  refine ⟨?_, ?_, ?_⟩
  · intro r1 r2 h1 h2 h3 h4 h5
    simp [LtRealization.eqv, LtRealization.reprStr, LtRealization.uid,
          h1, h2, h3, h4, h5]
  · intro r1 r2 h
    simpa [LtRealization.hashv] using congrArg String.hash h
  · intro h
    exact (by decide : rlzEx0.reprStr ≠ rlzEx1.reprStr) h

/-- Witness for the amended C5: a realization is equal to itself, obtained
by discharging the five component hypotheses with `rfl`. -/
theorem ltRealization_eq_spec_witness : rlzEx0.eqv rlzEx0 :=
  ltRealization_eq_spec.1 rlzEx0 rlzEx0 rfl rfl rfl rfl rfl

/-- `True` on the error constructor of `Except` (a Python exception). -/
def isErr {ε α : Type} : Except ε α → Bool
  | .error _ => true
  | .ok _ => false

/-- The sum of the weights of a list of realizations. -/
def totWeight (rlzs : List LtRealization) : ℚ :=
  (rlzs.map (·.weight)).sum

/-- The final weight-normalization block of
`CompositeSourceModel.get_rlzs_assoc` (source.py lines 599-613), acting on
the flat realization list: nothing happens on an empty list; in sampling
mode (`num_samples` truthy, i.e. nonzero) an `AssertionError` is raised
unless the number of realizations equals `num_samples`, and every weight is
set to `1/num_samples`; in full-enumeration mode (`num_samples = 0`) the
total weight is computed, a `ValueError` is raised if it is exactly zero,
and otherwise every weight is divided by the total. -/
def finalizeWeights (num_samples : ℕ) (rlzs : List LtRealization) :
    Except String (List LtRealization) :=
  if rlzs.isEmpty then .ok rlzs
  else if num_samples ≠ 0 then
    if rlzs.length = num_samples then
      .ok (rlzs.map fun r => { r with weight := 1 / (num_samples : ℚ) })
    else
      .error "AssertionError"
  else
    let tot := totWeight rlzs
    if tot = 0 then
      .error "All realizations have zero weight??"
    else
      .ok (rlzs.map fun r => { r with weight := r.weight / tot })

/-- Summing a list divided elementwise by `t` divides the sum by `t`. -/
theorem list_sum_div (l : List ℚ) (t : ℚ) :
    (l.map (· / t)).sum = l.sum / t := by
  induction l with
  | nil => simp
  | cons a l ih => simp [ih, add_div]

/-- Dividing every realization weight by `t` divides the total by `t`. -/
theorem totWeight_map_div (rlzs : List LtRealization) (t : ℚ) :
    totWeight (rlzs.map fun r => { r with weight := r.weight / t })
      = totWeight rlzs / t := by
  unfold totWeight
  rw [List.map_map, ← list_sum_div, List.map_map]
  rfl

/-- C1: in full-enumeration mode, on a nonempty realization list the
normalization block fails if and only if the total weight is exactly zero;
otherwise it divides every realization's weight by the total, after which
the weights sum to 1 (within 1e-9 — in this rational model, exactly). -/
theorem enumeration_normalization_spec (rlzs : List LtRealization)
    (h : rlzs ≠ []) :
    (isErr (finalizeWeights 0 rlzs) = true ↔ totWeight rlzs = 0) ∧
    (totWeight rlzs ≠ 0 →
      finalizeWeights 0 rlzs =
        .ok (rlzs.map fun r => { r with weight := r.weight / totWeight rlzs }) ∧
      |totWeight (rlzs.map fun r =>
          { r with weight := r.weight / totWeight rlzs }) - 1|
        ≤ 1 / 1000000000) := by
  have hne : rlzs.isEmpty = false := by simpa [List.isEmpty_iff] using h
  constructor
  · by_cases ht : totWeight rlzs = 0
    · simp [finalizeWeights, hne, isErr, ht]
    · simp [finalizeWeights, hne, isErr, ht]
  · intro ht
    refine ⟨by simp [finalizeWeights, hne, ht], ?_⟩
    rw [totWeight_map_div, div_self ht]
    norm_num

/-- Witness for C1: two realizations of weight 1 each; the block divides
both weights by 2 and the result sums to 1. -/
theorem enumeration_normalization_witness :
    (isErr (finalizeWeights 0 [rlzEx0, rlzEx1]) = true
        ↔ totWeight [rlzEx0, rlzEx1] = 0) ∧
    (totWeight [rlzEx0, rlzEx1] ≠ 0 →
      finalizeWeights 0 [rlzEx0, rlzEx1] =
        .ok ([rlzEx0, rlzEx1].map fun r =>
          { r with weight := r.weight / totWeight [rlzEx0, rlzEx1] }) ∧
      |totWeight ([rlzEx0, rlzEx1].map fun r =>
          { r with weight := r.weight / totWeight [rlzEx0, rlzEx1] }) - 1|
        ≤ 1 / 1000000000) :=
  enumeration_normalization_spec [rlzEx0, rlzEx1] (by simp)

/-- C2: in sampling mode (`n ≠ 0`), on a nonempty realization list the
normalization block fails (`AssertionError`) if and only if the number of
realizations differs from `n`; when it is exactly `n`, it succeeds and the
resulting list has length `n` with every weight equal to `1/n`. -/
theorem sampling_normalization_spec (n : ℕ) (hn : n ≠ 0)
    (rlzs : List LtRealization) (h : rlzs ≠ []) :
    (isErr (finalizeWeights n rlzs) = true ↔ rlzs.length ≠ n) ∧
    (rlzs.length = n →
      ∃ out, finalizeWeights n rlzs = .ok out ∧ out.length = n ∧
        ∀ r ∈ out, r.weight = 1 / (n : ℚ)) := by
  have hne : rlzs.isEmpty = false := by simpa [List.isEmpty_iff] using h
  constructor
  · by_cases hl : rlzs.length = n
    · simp [finalizeWeights, hne, hn, hl, isErr]
    · simp [finalizeWeights, hne, hn, hl, isErr]
  · intro hl
    refine ⟨rlzs.map fun r => { r with weight := 1 / (n : ℚ) },
            by simp [finalizeWeights, hne, hn, hl], by simp [hl], ?_⟩
    intro r hr
    rcases List.mem_map.1 hr with ⟨r0, _, rfl⟩
    rfl

/-- Witness for C2: sampling mode with `n = 2` and two realizations; the
block succeeds and forces both weights to `1/2`. -/
theorem sampling_normalization_witness :
    ∃ out, finalizeWeights 2 [rlzEx0, rlzEx1] = .ok out ∧ out.length = 2 ∧
      ∀ r ∈ out, r.weight = 1 / (2 : ℚ) :=
  (sampling_normalization_spec 2 (by decide) [rlzEx0, rlzEx1] (by simp)).2 rfl

/-- C9: when no skeleton model yields any realization the flat list is
empty and the entire normalization block is skipped in both modes: for
every `num_samples` (zero = enumeration, nonzero = sampling) the empty
association is returned unchanged, with no assertion failure and no
zero-total-weight error. -/
theorem empty_realizations_no_error (num_samples : ℕ) :
    finalizeWeights num_samples [] = .ok [] :=
  rfl

/-- The seeds handed to `random.Random` in the sampling branch of
`CompositeSourceModel.get_rlzs_assoc` (source.py lines 577-595): `idx`
starts at 0; for each source model in ordinal order the generator is built
as `random.Random(random_seed + idx)`, and when a model contributes `k`
realizations `_add_realizations` returns `idx + k` (a model contributing
none leaves `idx` unchanged). The argument `numRlzs` lists, per model in
ordinal order, how many realizations that model yields (in sampling mode,
its `samples` count). -/
def samplingSeedsAux (random_seed : ℤ) : ℕ → List ℕ → List ℤ
  | _, [] => []
  | idx, n :: rest =>
      (random_seed + idx) :: samplingSeedsAux random_seed (idx + n) rest

/-- The list of seeds used for the models, in ordinal order. -/
def samplingSeeds (random_seed : ℤ) (numRlzs : List ℕ) : List ℤ :=
  samplingSeedsAux random_seed 0 numRlzs

/-- C3 counterexample: with global seed 42 and a first model that yields 3
realizations, the second model's generator is seeded with 45 = 42 + 3, not
with `globalSeed + ordinal` = 42 + 1: the seed DOES depend on how many
realizations the previous model produced. -/
theorem sampling_seed_not_ordinal_based :
    samplingSeeds 42 [3, 1] = [42, 45] ∧ (45 : ℤ) ≠ 42 + 1 := by
  constructor
  · rfl
  · decide

/-- Value of `samplingSeedsAux` at position `k`. -/
theorem samplingSeedsAux_getElem (seed : ℤ) :
    ∀ (l : List ℕ) (idx k : ℕ), k < l.length →
      (samplingSeedsAux seed idx l)[k]? =
        some (seed + idx + ((l.take k).sum : ℕ))
  | [], _, k, hk => absurd hk (by simp)
  | n :: rest, idx, 0, _ => by
      simp [samplingSeedsAux]
  | n :: rest, idx, k + 1, hk => by
      simp only [samplingSeedsAux, List.getElem?_cons_succ]
      rw [samplingSeedsAux_getElem seed rest (idx + n) k (by simpa using hk)]
      congr 1
      simp only [List.take_succ_cons, List.sum_cons]
      push_cast
      ring

/-- C3 corrected: in sampling mode the pseudo-random generator for the
model of ordinal `k` is seeded with `globalSeed` plus the total number of
realizations produced by the previously processed models — not with
`globalSeed + k` — so the draws for one model depend on how many
realizations the previous models produced; the two coincide only when
every previous model contributed exactly one realization. -/
theorem sampling_seed_spec (seed : ℤ) (numRlzs : List ℕ) (k : ℕ)
    (hk : k < numRlzs.length) :
    (samplingSeeds seed numRlzs)[k]? =
      some (seed + ((numRlzs.take k).sum : ℕ)) := by
  have h := samplingSeedsAux_getElem seed numRlzs 0 k hk
  simpa using h

/-- Witness for the corrected C3: the second seed for counts `[3, 1]` and
global seed 42 is `42 + 3`. -/
theorem sampling_seed_spec_witness :
    (samplingSeeds 42 [3, 1])[1]? =
      some (42 + ((([3, 1].take 1).sum : ℕ) : ℤ)) :=
  sampling_seed_spec 42 [3, 1] 1 (by decide)

/-- A skeleton source model as consumed by `CompositionInfo.__init__`
(source.py lines 435-449): its sample count and the ids of its TrtModels,
in order. -/
structure SmSkeleton where
  samples : ℕ
  trtIds : List ℕ
deriving DecidableEq

/-- The `(trt_id, idx)` keys walked by `CompositionInfo.__init__`: models
in ordinal order, then TrtModels in order, then sample indices
`0 .. samples-1`. Note that the inner loop `for idx in range(sm.samples)`
runs for EVERY model, also when `sm.samples == 1`. -/
def compositionKeys (sms : List SmSkeleton) : List (ℕ × ℕ) :=
  sms.flatMap fun sm => sm.trtIds.flatMap fun trt_id =>
    (List.range sm.samples).map fun idx => (trt_id, idx)

/-- Sequential allocation of collection ids from a running counter. -/
def assignColIds : ℕ → List (ℕ × ℕ) → List ((ℕ × ℕ) × ℕ)
  | _, [] => []
  | c, k :: ks => (k, c) :: assignColIds (c + 1) ks

/-- `CompositionInfo._col_dict` as the association list
`(trt_id, idx) → col_id` built in walk order. -/
def colDict (sms : List SmSkeleton) : List ((ℕ × ℕ) × ℕ) :=
  assignColIds 0 (compositionKeys sms)

/-- The final value of the `col_id` counter after a list of keys. -/
def numCollectionsAux : ℕ → List (ℕ × ℕ) → ℕ
  | c, [] => c
  | c, _ :: ks => numCollectionsAux (c + 1) ks

/-- `CompositionInfo.num_collections`. -/
def num_collections (sms : List SmSkeleton) : ℕ :=
  numCollectionsAux 0 (compositionKeys sms)

/-- Four models with sample counts `[1, 3, 1, 2]`, one group each, with
group ids 0, 1, 2, 3 — the configuration named by the claim. -/
def smsEx : List SmSkeleton :=
  [⟨1, [0]⟩, ⟨3, [1]⟩, ⟨1, [2]⟩, ⟨2, [3]⟩]

/-- C4 counterexample: for sample counts `[1, 3, 1, 2]` with one group per
model the code allocates `1 + 3 + 1 + 2 = 7` collection ids, not the
`3*1 + 2*1 = 5` the claim predicts, and the very first id (0) goes to the
non-oversampled model 0 (key `(0, 0)`): models with sample count 1 DO
contribute ids. -/
theorem composition_counts_all_models :
    num_collections smsEx = 7 ∧ (7 : ℕ) ≠ 3 * 1 + 2 * 1 ∧
    (colDict smsEx).head? = some ((0, 0), 0) := by
  refine ⟨rfl, by decide, rfl⟩

/-- The counter after `ks` keys is its start plus the number of keys. -/
theorem numCollectionsAux_eq :
    ∀ (ks : List (ℕ × ℕ)) (c : ℕ), numCollectionsAux c ks = c + ks.length
  | [], c => by simp [numCollectionsAux]
  | _ :: ks, c => by
      simp [numCollectionsAux, numCollectionsAux_eq ks]
      omega

/-- The allocated ids are the consecutive integers from the start value. -/
theorem assignColIds_map_snd :
    ∀ (ks : List (ℕ × ℕ)) (c : ℕ),
      (assignColIds c ks).map Prod.snd = List.range' c ks.length
  | [], c => by simp [assignColIds]
  | k :: ks, c => by
      simp [assignColIds, assignColIds_map_snd ks (c + 1), List.range'_succ]

/-- Allocation preserves the walked keys, in order. -/
theorem assignColIds_map_fst :
    ∀ (ks : List (ℕ × ℕ)) (c : ℕ),
      (assignColIds c ks).map Prod.fst = ks
  | [], _ => by simp [assignColIds]
  | k :: ks, c => by
      simp [assignColIds, assignColIds_map_fst ks (c + 1)]

/-- One model's contribution to the walk has `groups * samples` keys. -/
theorem innerKeys_length (sm : SmSkeleton) :
    (sm.trtIds.flatMap fun trt_id =>
      (List.range sm.samples).map fun idx => (trt_id, idx)).length =
      sm.trtIds.length * sm.samples := by
  induction sm.trtIds with
  | nil => simp
  | cons t ts ih =>
      simp_all [List.flatMap_cons]
      ring

/-- The walk has one key per (model, group, sample index). -/
theorem compositionKeys_length (sms : List SmSkeleton) :
    (compositionKeys sms).length =
      (sms.map fun sm => sm.trtIds.length * sm.samples).sum := by
  induction sms with
  | nil => rfl
  | cons sm rest ih =>
      simp only [compositionKeys, List.flatMap_cons, List.length_append,
                 List.map_cons, List.sum_cons] at ih ⊢
      rw [ih, innerKeys_length]

/-- C4 corrected: collection ids are contiguous integers starting at 0,
assigned in skeleton-model order, then group order, then sample-index
order — but EVERY model contributes ids (a model with sample count 1
contributes one id per group), so the total collection count equals the
sum over ALL models of (number of groups times sample count). -/
theorem composition_col_ids_spec (sms : List SmSkeleton) :
    (colDict sms).map Prod.snd = List.range (num_collections sms) ∧
    num_collections sms =
      (sms.map fun sm => sm.trtIds.length * sm.samples).sum ∧
    (colDict sms).map Prod.fst = compositionKeys sms := by
  refine ⟨?_, ?_, ?_⟩
  · rw [colDict, assignColIds_map_snd, num_collections, numCollectionsAux_eq,
        List.range_eq_range', Nat.zero_add]
  · rw [num_collections, numCollectionsAux_eq, compositionKeys_length,
        Nat.zero_add]
  · rw [colDict, assignColIds_map_fst]

section Aggregation

variable {κ ρ α : Type} [DecidableEq ρ]

/-- `RlzsAssoc.combine(results, agg)` (source.py lines 359-408): starting
from an EMPTY accumulator dictionary (modelled as the everywhere-`none`
function), for each `(key, value)` of `results` in iteration order and for
each realization in the reverse-index list of that key, perform
`ad[rlz] = agg(ad.get(rlz, 0), value)`. A realization touched by no key
never receives an entry. -/
def combine [Zero α] (rlzs_assoc : κ → List ρ) (results : List (κ × α))
    (agg : α → α → α) : ρ → Option α :=
  results.foldl
    (fun ad kv => (rlzs_assoc kv.1).foldl
      (fun ad rlz =>
        Function.update ad rlz (some (agg ((ad rlz).getD 0) kv.2)))
      ad)
    (fun _ => none)

/-- `RlzsAssoc.combine_curves(results, agg, acc)` (source.py lines
331-341): the accumulator starts with the entry `acc` for EVERY
realization of the association, and each key's value is folded into the
entries of the realizations that key maps to with
`ad[rlz] = agg(ad[rlz], value)`. (The Python lookup `ad[rlz]` presupposes
the entry exists; in the intended use the reverse index lists only
realizations of the association. The embedding leaves an absent entry
absent.) -/
def combine_curves (realizations : List ρ) (rlzs_assoc : κ → List ρ)
    (results : List (κ × α)) (agg : α → α → α) (acc : α) : ρ → Option α :=
  results.foldl
    (fun ad kv => (rlzs_assoc kv.1).foldl
      (fun ad rlz =>
        Function.update ad rlz ((ad rlz).map (fun a => agg a kv.2)))
      ad)
    (fun r => if r ∈ realizations then some acc else none)

/-- The values folded into realization `r` by the aggregation loops: for
each `(key, value)` pair in iteration order, one copy of `value` per
occurrence of `r` in the reverse-index list of that key. -/
def contribs (rlzs_assoc : κ → List ρ) (r : ρ)
    (results : List (κ × α)) : List α :=
  results.flatMap fun kv =>
    ((rlzs_assoc kv.1).filter (fun x => decide (x = r))).map fun _ => kv.2

/-- Reading the inner (per-key) loop of the aggregation operators at `r`:
only the occurrences of `r` in the key's reverse-index list act on the
entry of `r`. -/
theorem inner_foldl_apply (u : Option α → α → Option α) (v : α) (r : ρ) :
    ∀ (rs : List ρ) (ad : ρ → Option α),
      (rs.foldl (fun ad rlz => Function.update ad rlz (u (ad rlz) v)) ad) r =
        ((rs.filter (fun x => decide (x = r))).map (fun _ => v)).foldl
          u (ad r)
  | [], _ => rfl
  | rlz :: rs, ad => by
      rw [List.foldl_cons, inner_foldl_apply u v r rs]
      by_cases h : rlz = r
      · subst h
        simp [List.filter_cons, Function.update_same]
      · rw [Function.update_noteq (Ne.symm h)]
        simp [List.filter_cons, h]

/-- Reading the outer loop of the aggregation operators at `r`: the entry
of `r` is the fold of its contributions over the initial entry. -/
theorem outer_foldl_apply (u : Option α → α → Option α)
    (rlzs_assoc : κ → List ρ) (r : ρ) :
    ∀ (results : List (κ × α)) (ad : ρ → Option α),
      (results.foldl
        (fun ad kv => (rlzs_assoc kv.1).foldl
          (fun ad rlz => Function.update ad rlz (u (ad rlz) kv.2)) ad)
        ad) r =
        (contribs rlzs_assoc r results).foldl u (ad r)
  | [], _ => rfl
  | kv :: rest, ad => by
      rw [List.foldl_cons, outer_foldl_apply u rlzs_assoc r rest]
      rw [inner_foldl_apply u kv.2 r]
      simp only [contribs, List.flatMap_cons, List.foldl_append]

/-- `combine` read at one realization, in terms of its contributions. -/
theorem combine_apply [Zero α] (rlzs_assoc : κ → List ρ)
    (results : List (κ × α)) (agg : α → α → α) (r : ρ) :
    combine rlzs_assoc results agg r =
      (contribs rlzs_assoc r results).foldl
        (fun o v => some (agg (o.getD 0) v)) none :=
  outer_foldl_apply (fun o v => some (agg (o.getD 0) v)) rlzs_assoc r
    results (fun _ => none)

/-- `combine_curves` read at one realization. -/
theorem combine_curves_apply (realizations : List ρ)
    (rlzs_assoc : κ → List ρ) (results : List (κ × α))
    (agg : α → α → α) (acc : α) (r : ρ) :
    combine_curves realizations rlzs_assoc results agg acc r =
      (contribs rlzs_assoc r results).foldl
        (fun o v => o.map (fun a => agg a v))
        (if r ∈ realizations then some acc else none) :=
  outer_foldl_apply (fun o v => o.map (fun a => agg a v)) rlzs_assoc r
    results (fun x => if x ∈ realizations then some acc else none)

/-- The `ad.get(rlz, 0)`-style fold starting from a present entry. -/
theorem optfold_some [Zero α] (agg : α → α → α) :
    ∀ (vs : List α) (a : α),
      vs.foldl (fun o v => some (agg (o.getD 0) v)) (some a) =
        some (vs.foldl agg a)
  | [], _ => rfl
  | v :: vs, a => by simpa using optfold_some agg vs (agg a v)

/-- The `ad.get(rlz, 0)`-style fold starting from an absent entry yields
the plain fold from 0 when there is at least one contribution. -/
theorem optfold_none_of_ne_nil [Zero α] (agg : α → α → α) :
    ∀ (vs : List α), vs ≠ [] →
      vs.foldl (fun o v => some (agg (o.getD 0) v)) none =
        some (vs.foldl agg 0)
  | [], h => absurd rfl h
  | v :: vs, _ => by simpa using optfold_some agg vs (agg 0 v)

/-- The `ad[rlz] = agg(ad[rlz], value)`-style fold keeps a present entry
present and folds the values into it. -/
theorem curvesfold_some (agg : α → α → α) :
    ∀ (vs : List α) (a : α),
      vs.foldl (fun o v => o.map (fun x => agg x v)) (some a) =
        some (vs.foldl agg a)
  | [], _ => rfl
  | v :: vs, a => by simpa using curvesfold_some agg vs (agg a v)

/-- A realization has no contributions iff no key of the input reaches it
through the reverse index. -/
theorem contribs_eq_nil_iff (rlzs_assoc : κ → List ρ) (r : ρ)
    (results : List (κ × α)) :
    contribs rlzs_assoc r results = [] ↔
      ∀ kv ∈ results, r ∉ rlzs_assoc kv.1 := by
  simp only [contribs, List.flatMap_eq_nil_iff, List.map_eq_nil_iff,
             List.filter_eq_nil_iff, decide_eq_true_eq]
  constructor
  · intro h kv hkv hr
    exact h kv hkv r hr rfl
  · intro h kv hkv a ha har
    exact h kv hkv (har ▸ ha)

/-- A realization has contributions iff some key of the input reaches it. -/
theorem contribs_ne_nil_iff (rlzs_assoc : κ → List ρ) (r : ρ)
    (results : List (κ × α)) :
    contribs rlzs_assoc r results ≠ [] ↔
      ∃ kv ∈ results, r ∈ rlzs_assoc kv.1 := by
  rw [Ne, contribs_eq_nil_iff]
  push_neg
  rfl

/-- `combine` has an entry for `r` exactly when `r` has contributions. -/
theorem combine_isSome_iff [Zero α] (rlzs_assoc : κ → List ρ)
    (results : List (κ × α)) (agg : α → α → α) (r : ρ) :
    (combine rlzs_assoc results agg r).isSome = true ↔
      contribs rlzs_assoc r results ≠ [] := by
  rw [combine_apply]
  cases h : contribs rlzs_assoc r results with
  | nil => simp
  | cons v vs =>
      rw [optfold_none_of_ne_nil agg (v :: vs) (List.cons_ne_nil v vs)]
      simp

end Aggregation

/-- The reverse index of the worked example in the `combine` docstring
(source.py lines 365-373): category T1 with choices A, B, C and category
T2 with choices D, E, over six realizations r0 .. r5. -/
def exAssoc : String × String → List String
  | ("T1", "A") => ["r0", "r1"]
  | ("T1", "B") => ["r2", "r3"]
  | ("T1", "C") => ["r4", "r5"]
  | ("T2", "D") => ["r0", "r2", "r4"]
  | ("T2", "E") => ["r1", "r3", "r5"]
  | _ => []

/-- The per-key values of the worked example (source.py lines 375-380). -/
def exResults : List ((String × String) × ℚ) :=
  [(("T1", "A"), 1/100), (("T1", "B"), 2/100), (("T1", "C"), 3/100),
   (("T2", "D"), 4/100), (("T2", "E"), 5/100)]

/-- C6: `combine` is order-independent when the aggregation function is
commutative and associative — permuting the iteration order of the input
mapping yields the same function of realizations — and on the documented
example, with addition, every iteration order yields r0 = 0.05, r1 = 0.06,
r2 = 0.06, r3 = 0.07, r4 = 0.07, r5 = 0.08. -/
theorem combine_order_independent :
    (∀ (rlzs_assoc : String × String → List String) (agg : ℚ → ℚ → ℚ),
        (∀ a b, agg a b = agg b a) →
        (∀ a b c, agg (agg a b) c = agg a (agg b c)) →
        ∀ results results' : List ((String × String) × ℚ),
          results.Perm results' →
          combine rlzs_assoc results agg = combine rlzs_assoc results' agg) ∧
    (∀ results' : List ((String × String) × ℚ), exResults.Perm results' →
        combine exAssoc results' (· + ·) "r0" = some (5/100) ∧
        combine exAssoc results' (· + ·) "r1" = some (6/100) ∧
        combine exAssoc results' (· + ·) "r2" = some (6/100) ∧
        combine exAssoc results' (· + ·) "r3" = some (7/100) ∧
        combine exAssoc results' (· + ·) "r4" = some (7/100) ∧
        combine exAssoc results' (· + ·) "r5" = some (8/100)) := by
  have horder : ∀ (rlzs_assoc : String × String → List String)
      (agg : ℚ → ℚ → ℚ),
      (∀ a b, agg a b = agg b a) →
      (∀ a b c, agg (agg a b) c = agg a (agg b c)) →
      ∀ results results' : List ((String × String) × ℚ),
        results.Perm results' →
        combine rlzs_assoc results agg = combine rlzs_assoc results' agg := by
    intro assoc agg hc ha results results' hperm
    funext r
    rw [combine_apply, combine_apply]
    have hp : (contribs assoc r results).Perm (contribs assoc r results') :=
      hperm.flatMap_right _
    cases h : contribs assoc r results with
    | nil =>
        rw [h] at hp
        rw [hp.symm.eq_nil]
    | cons v vs =>
        rw [h] at hp
        have h' : contribs assoc r results' ≠ [] := by
          intro hnil
          rw [hnil] at hp
          exact absurd hp.eq_nil (List.cons_ne_nil v vs)
        rw [optfold_none_of_ne_nil agg (v :: vs) (List.cons_ne_nil v vs),
            optfold_none_of_ne_nil agg _ h']
        haveI : RightCommutative agg :=
          ⟨fun b a₁ a₂ => by rw [ha, hc a₁ a₂, ← ha]⟩
        rw [hp.foldl_eq 0]
  refine ⟨horder, fun results' hperm => ?_⟩
  have he := horder exAssoc (· + ·) (fun a b => add_comm a b)
    (fun a b c => add_assoc a b c) exResults results' hperm
  rw [← he]
  refine ⟨?_, ?_, ?_, ?_, ?_, ?_⟩ <;>
    · rw [combine_apply]
      simp [contribs, exResults, exAssoc, List.flatMap_cons,
            List.filter_cons]
      try norm_num

/-- Witness for C6: the canonical iteration order of the example yields
r0 = 0.05. -/
theorem combine_order_independent_witness :
    combine exAssoc exResults (· + ·) "r0" = some (5/100) :=
  (combine_order_independent.2 exResults (List.Perm.refl _)).1

/-- C10: `combine` returns an entry exactly for the realizations that
appear in the reverse-index list of at least one key of its input —
realizations touched by no key are absent from its result — whereas
`combine_curves` holds an entry for every realization of the association,
equal to the caller-supplied accumulator when no key contributes to it. -/
theorem combine_vs_combine_curves_domain {κ ρ α : Type} [DecidableEq ρ]
    [Zero α] (realizations : List ρ) (rlzs_assoc : κ → List ρ)
    (results : List (κ × α)) (agg : α → α → α) (acc : α) (r : ρ) :
    ((combine rlzs_assoc results agg r).isSome = true ↔
        ∃ kv ∈ results, r ∈ rlzs_assoc kv.1) ∧
    (r ∈ realizations →
      (combine_curves realizations rlzs_assoc results agg acc r).isSome
        = true) ∧
    (r ∈ realizations → (∀ kv ∈ results, r ∉ rlzs_assoc kv.1) →
      combine_curves realizations rlzs_assoc results agg acc r
        = some acc) := by
  refine ⟨?_, ?_, ?_⟩
  · rw [combine_isSome_iff, contribs_ne_nil_iff]
  · intro hr
    rw [combine_curves_apply, if_pos hr, curvesfold_some]
    rfl
  · intro hr hnone
    rw [combine_curves_apply, if_pos hr,
        (contribs_eq_nil_iff rlzs_assoc r results).2 hnone]
    rfl

/-- Witness for C10 on the worked example: `combine` does hold an entry
for the touched realization r0, and `combine_curves` holds the initial
accumulator entry for a realization rX of the association that no key
touches. -/
theorem combine_vs_combine_curves_domain_witness :
    (combine exAssoc exResults (· + ·) "r0").isSome = true ∧
    combine_curves ["rX"] exAssoc exResults (· + ·) (0 : ℚ) "rX"
      = some 0 :=
  ⟨(combine_vs_combine_curves_domain ["rX"] exAssoc exResults (· + ·) 0
      "r0").1.2
      ⟨(("T1", "A"), 1/100), by simp [exResults], by simp [exAssoc]⟩,
   (combine_vs_combine_curves_domain ["rX"] exAssoc exResults (· + ·) 0
      "rX").2.2 (by simp) (by decide)⟩

/-- The final source-update step of `SourceProcessor.process` (source.py
lines 769-780): a TrtModel's source list is replaced by the aggregated
derived sources for its id — `sources_by_trt.get(trt_model.id, [])`,
modelled as a total function with the default already applied — sorted by
`source_id` (Python `sorted`, a stable mergesort). -/
def sortBySourceId (l : List Src) : List Src :=
  l.mergeSort (fun a b => decide (a.source_id ≤ b.source_id))

/-- One TrtModel updated in place by the loop of source.py lines 769-780. -/
def updateTrtSources (sources_by_trt : ℕ → List Src) (tm : TrtModel) :
    TrtModel :=
  { tm with sources := sortBySourceId (sources_by_trt tm.id) }

/-- The loop over `csm`: every source model, every TrtModel, is updated in
place; none is removed (an empty result only triggers a warning). -/
def processUpdate (sources_by_trt : ℕ → List Src)
    (sms : List (List TrtModel)) : List (List TrtModel) :=
  sms.map fun tms => tms.map (updateTrtSources sources_by_trt)

/-- C8: after the processor runs, the composite model keeps exactly its
source models and its TrtModels (same counts, same ids, same categories —
a TrtModel left with zero sources is kept, with only a warning); every
TrtModel's source list is replaced by the (possibly empty) aggregated
derived-source list for its id, sorted by source id. -/
theorem processor_replaces_sources (sources_by_trt : ℕ → List Src)
    (sms : List (List TrtModel)) :
    (processUpdate sources_by_trt sms).length = sms.length ∧
    (∀ i : ℕ, ((processUpdate sources_by_trt sms)[i]?).map List.length
        = (sms[i]?).map List.length) ∧
    (∀ tms ∈ sms, ∀ tm ∈ tms,
      (updateTrtSources sources_by_trt tm).id = tm.id ∧
      (updateTrtSources sources_by_trt tm).trt = tm.trt ∧
      ((updateTrtSources sources_by_trt tm).sources).Perm
        (sources_by_trt tm.id) ∧
      List.Pairwise (fun a b => a.source_id ≤ b.source_id)
        (updateTrtSources sources_by_trt tm).sources) ∧
    processUpdate sources_by_trt sms
      = sms.map fun tms => tms.map (updateTrtSources sources_by_trt) := by
  refine ⟨by simp [processUpdate], ?_, ?_, rfl⟩
  · intro i
    simp only [processUpdate, List.getElem?_map]
    cases sms[i]? with
    | none => rfl
    | some tms => simp
  · intro tms _ tm _
    refine ⟨rfl, rfl, List.mergeSort_perm _ _, ?_⟩
    have hs := @List.sorted_mergeSort Src
      (fun a b : Src => decide (a.source_id ≤ b.source_id))
      (fun a b c hab hbc => by
        simp only [decide_eq_true_eq] at hab hbc ⊢
        exact le_trans hab hbc)
      (fun a b => by
        simp only [Bool.or_eq_true, decide_eq_true_eq]
        exact le_total a.source_id b.source_id)
      (sources_by_trt tm.id)
    exact List.Pairwise.imp (fun h => of_decide_eq_true h) hs

/-- Witness for C8 at a one-model, one-group composite and a dictionary
sending every id to `[srcA]`. -/
theorem processor_replaces_sources_witness :
    (updateTrtSources (fun _ => [srcA]) tmA).id = tmA.id ∧
    (updateTrtSources (fun _ => [srcA]) tmA).trt = tmA.trt ∧
    ((updateTrtSources (fun _ => [srcA]) tmA).sources).Perm [srcA] ∧
    List.Pairwise (fun a b => a.source_id ≤ b.source_id)
      (updateTrtSources (fun _ => [srcA]) tmA).sources :=
  (processor_replaces_sources (fun _ => [srcA]) [[tmA]]).2.2.1
    [tmA] (by simp) tmA (by simp)

end OQ
